import Mathlib

/-!
Verification development for the SNP exam generator
(`SNP_Exam_Generator.py`).

The Python program reads a question bank from a spreadsheet, samples a
subset of questions, bumps each sampled question's occurrence counter,
stamps it with a fresh exam (generation) number, writes the mutated bank
back, and renders a self-grading HTML document whose embedded JavaScript
grades the user's selections against an answer key.

This file gives a shallow embedding of that program:
* cells of the numeric "Exam Number" column are modelled by `Cell`
  (missing / integer / free text); `pd.to_numeric(errors := coerce)` is
  modelled by `toNumericCell` (numeric values are modelled as integers);
* a spreadsheet row is `Record`;
* `commitRun` models lines 46-63 of `generate_exam_html` (exam-number
  coercion, next-number computation, occurrence and exam-number update);
* `runEngine` models the persistence order of lines 66-72 (store written
  first, document second), with an injected document-write failure;
* `buildKeyAux`/`parseAnswers` model the answer-key construction of
  `create_html_content` (lines 82-86);
* `renderAux` models the per-question option rendering (lines 176-202),
  including `html.escape`;
* `gradeOne`/`checkAnswersDom` model the embedded JavaScript
  `checkAnswers` (lines 111-166), with the browser's attribute-value
  entity decoding modelled by `htmlUnescapeList`.
-/

namespace SNP

/-- The whitespace characters removed by Python `str.strip()` (ASCII part)
and by JavaScript `String.prototype.trim()`. -/
def isPySpace (c : Char) : Bool :=
  c = ' ' || c = '\t' || c = '\n' || c = '\r' || c = Char.ofNat 11 || c = Char.ofNat 12

/-- Strip leading and trailing whitespace from a character list, as Python
`str.strip()` and JavaScript `trim()` do. -/
def stripList (l : List Char) : List Char :=
  ((l.dropWhile isPySpace).reverse.dropWhile isPySpace).reverse

/-- `trimWS s` models both Python `s.strip()` and JavaScript `s.trim()`. -/
def trimWS (s : String) : String :=
  String.mk (stripList s.toList)

/-- Split a character list at every occurrence of `c`, keeping empty
pieces, as Python `str.split(c)` does. `acc` is the current piece,
accumulated in reverse. -/
def splitOnCharAux (c : Char) : List Char → List Char → List (List Char)
  | [], acc => [acc.reverse]
  | x :: xs, acc =>
    if x = c then acc.reverse :: splitOnCharAux c xs []
    else splitOnCharAux c xs (x :: acc)

/-- Python `s.split('+')`: split on every plus sign, keeping empty pieces. -/
def pySplitPlus (s : String) : List String :=
  (splitOnCharAux '+' s.toList []).map String.mk

/-- Line 85: `[ans.strip() for ans in str(row[...]).split('+')]` — the
answer labels parsed from one correct-answer specification string. -/
def parseAnswers (spec : String) : List String :=
  (pySplitPlus spec).map trimWS

/-- The replacement `html.escape` (with `quote=True`) performs on one
character: `&`, `<`, `>`, `"` and the apostrophe become entities, every
other character is kept. -/
def pyHtmlEscapeChar (c : Char) : List Char :=
  if c = '&' then "&amp;".toList
  else if c = '<' then "&lt;".toList
  else if c = '>' then "&gt;".toList
  else if c = '"' then "&quot;".toList
  else if c = Char.ofNat 39 then ("&#x27;").toList
  else [c]

/-- `html.escape(s, quote=True)` on a character list. The sequential
`str.replace` chain of CPython's `html.escape` replaces `&` first, so it
acts independently on each source character. -/
def pyHtmlEscapeList (l : List Char) : List Char :=
  l.flatMap pyHtmlEscapeChar

/-- `html.escape(s, quote=True)`. -/
def pyHtmlEscape (s : String) : String :=
  String.mk (pyHtmlEscapeList s.toList)

/-- Recognize one of the five entities `html.escape` emits at the head of
the character stream (just after an ampersand): the decoded character and
the remaining stream. -/
def matchEntity : List Char → Option (Char × List Char)
  | 'a' :: 'm' :: 'p' :: ';' :: r => some ('&', r)
  | 'l' :: 't' :: ';' :: r => some ('<', r)
  | 'g' :: 't' :: ';' :: r => some ('>', r)
  | 'q' :: 'u' :: 'o' :: 't' :: ';' :: r => some ('"', r)
  | '#' :: 'x' :: '2' :: '7' :: ';' :: r => some (Char.ofNat 39, r)
  | _ => none

/-- One step of the browser's HTML-attribute entity decoding per unit of
fuel: an ampersand followed by a recognized entity decodes to that
character, anything else is copied. Every step consumes at least one
character, so fuel equal to the input length always suffices. -/
def unescGo : Nat → List Char → List Char
  | 0, l => l
  | _ + 1, [] => []
  | fuel + 1, c :: rest =>
    if c = '&' then
      match matchEntity rest with
      | some (d, r) => d :: unescGo fuel r
      | none => c :: unescGo fuel rest
    else c :: unescGo fuel rest

/-- The browser's HTML-attribute entity decoding, restricted to the five
entities `html.escape` emits. This is what turns the serialized `value`
attribute back into the DOM `input.value` the grading script reads. -/
def htmlUnescapeList (l : List Char) : List Char :=
  unescGo l.length l

/-- Entity decoding on strings. -/
def htmlUnescape (s : String) : String :=
  String.mk (htmlUnescapeList s.toList)

/-- `opt.value.trim()` (line 123): the value the grading script reads from
a rendered input control whose `value` attribute holds `renderedVal`. -/
def readValue (renderedVal : String) : String :=
  trimWS (htmlUnescape renderedVal)

/-- One cell of the numeric "Exam Number" column: missing (`NaN`/empty),
an integer, or free text. Numeric cells are modelled as integers. -/
inductive Cell where
  | na : Cell
  | int (n : Int) : Cell
  | str (s : String) : Cell
deriving DecidableEq, Repr

/-- One row of the question bank, with the columns the program touches.
`occurrence` and the optional text columns use `none` for a `NaN` cell. -/
structure Record where
  occurrence : Option Int
  examNumber : Cell
  questionText : String
  selections : Option String
  selectionCriteria : Option String
  correctAnswers : Option String
  examLabel : String
  questionLabel : String
  difficulty : String
  domain : String
deriving DecidableEq, Repr

/-- The numeric value of a decimal digit, `none` otherwise. -/
def digitVal (c : Char) : Option Nat :=
  if c.isDigit then some (c.toNat - '0'.toNat) else none

/-- Read a nonempty run of digits as a number; `none` on any non-digit. -/
def parseDigitsAux : List Char → Nat → Option Nat
  | [], acc => some acc
  | c :: rest, acc =>
    match digitVal c with
    | none => none
    | some d => parseDigitsAux rest (acc * 10 + d)

/-- A nonempty all-digit character list as a number. -/
def parseDigits : List Char → Option Nat
  | [] => none
  | l => parseDigitsAux l 0

/-- Integer-valued numeric text: an optional sign followed by at least one
digit. (Float-valued text is outside this integer model.) -/
def parseIntChars (l : List Char) : Option Int :=
  match l with
  | [] => none
  | c :: rest =>
    if c = '-' then (parseDigits rest).map fun n => -(n : Int)
    else if c = '+' then (parseDigits rest).map fun n => (n : Int)
    else (parseDigits l).map fun n => (n : Int)

/-- `pd.to_numeric(value, errors='coerce')` on one cell (line 49):
numbers pass through, integer-valued numeric text parses, anything else
becomes `NaN`. -/
def toNumericCell : Cell → Cell
  | .na => .na
  | .int n => .int n
  | .str s =>
    match parseIntChars s.toList with
    | some n => .int n
    | none => .na

/-- The numeric value of a cell, `none` for `NaN` or text. -/
def cellNum : Cell → Option Int
  | .int n => some n
  | _ => none

/-- Line 49 applied to the whole bank: the "Exam Number" column is
overwritten with its coerced values; no other column changes. -/
def coerceExamNumbers (bank : List Record) : List Record :=
  bank.map fun r => { r with examNumber := toNumericCell r.examNumber }

/-- The valid numeric generation numbers of the bank, in row order:
the column after coercion, with `NaN` dropped (lines 49-51). -/
def validGens (bank : List Record) : List Int :=
  bank.filterMap fun r => cellNum (toNumericCell r.examNumber)

/-- Lines 46-53: `max_exam_number` is 0 when no valid numeric generation
number exists, else the maximum of the valid ones. -/
def maxExamNumber (bank : List Record) : Int :=
  match validGens bank with
  | [] => 0
  | x :: xs => xs.foldl max x

/-- Line 55: the generation number assigned to this run, computed from the
pre-mutation bank. -/
def newExamNumberOf (bank : List Record) : Int :=
  maxExamNumber bank + 1

/-- Lines 57-58: the requested sample size, clamped to the bank size. -/
def effSampleSize (bankLen n : Nat) : Nat :=
  if bankLen < n then bankLen else n

/-- Lines 62-63 on one sampled row: the occurrence counter is bumped
(`fillna(0) + 1`) and the exam number set to the run's number. -/
def updateRecord (newN : Int) (r : Record) : Record :=
  { r with occurrence := some (r.occurrence.getD 0 + 1), examNumber := .int newN }

/-- Walk the (already coerced) bank with its row position, updating the
rows whose position was sampled and keeping the others. -/
def commitAux (newN : Int) (idxs : List Nat) : Nat → List Record → List Record
  | _, [] => []
  | i, r :: rs =>
    (if i ∈ idxs then updateRecord newN r else r) :: commitAux newN idxs (i + 1) rs

/-- Lines 49-63 of `generate_exam_html`: coerce the "Exam Number" column,
compute the run's generation number from the pre-mutation maximum, then
update the sampled rows (`idxs` is the set of sampled row positions). -/
def commitRun (bank : List Record) (idxs : List Nat) : List Record :=
  commitAux (newExamNumberOf bank) idxs 0 (coerceExamNumbers bank)

/-- Line 68: the output document path derived from the run's number. -/
def outputPath (outputDir : String) (n : Int) : String :=
  outputDir ++ "/shuffle_exam_test_" ++ toString n ++ ".html"

/-- Line 59, `sheet_data.sample(sample_size)`: pandas draws `sample_size`
distinct row positions uniformly at random. The randomness is modelled by
`perm`, a permutation of the row positions, of which the first
`effSampleSize` entries are the sampled positions. -/
def sampledIdxs (bankLen n : Nat) (perm : List Nat) : List Nat :=
  perm.take (effSampleSize bankLen n)

/-- The sampled rows themselves, in sample order. -/
def sampleQuestions (bank : List Record) (n : Nat) (perm : List Nat) : List Record :=
  (sampledIdxs bank.length n perm).filterMap fun i => bank[i]?

/-- The persistent side effects of one `generate_exam_html` run:
the stored bank contents and whether the output document exists. -/
structure EngineState where
  storeContents : List Record
  docExists : Bool
deriving DecidableEq, Repr

/-- Lines 62-72 of `generate_exam_html` as a sequence of persistence
effects: the mutated bank is written back to the store (line 66,
`to_excel`) and only afterwards is the document written (lines 71-72).
`docWriteFails` injects a failure of the document write; the exception
then propagates (line 77) and the run reports failure. The returned
`Bool` is whether the run succeeded. -/
def runEngine (bank : List Record) (idxs : List Nat) (docWriteFails : Bool) :
    EngineState × Bool :=
  let mutated := commitRun bank idxs
  if docWriteFails then
    ({ storeContents := mutated, docExists := false }, false)
  else
    ({ storeContents := mutated, docExists := true }, true)

/-- Lines 83-86 of `create_html_content`: walk the sampled rows with their
1-based position; a row whose correct-answer cell is present (`pd.notna`)
contributes the entry `position ↦ parsed labels` to the answer key. -/
def buildKeyAux : Nat → List Record → List (Nat × List String)
  | _, [] => []
  | i, r :: rs =>
    match r.correctAnswers with
    | none => buildKeyAux (i + 1) rs
    | some s => (i, parseAnswers s) :: buildKeyAux (i + 1) rs

/-- The answer key `correct_answers_dict` of a run, keyed by 1-based
question position. -/
def buildAnswerKey (qs : List Record) : List (Nat × List String) :=
  buildKeyAux 1 qs

/-- One rendered input control: the (escaped) `value` attribute text. -/
structure RenderedOption where
  valueAttr : String
deriving DecidableEq, Repr

/-- One rendered question block. -/
structure RenderedQuestion where
  position : Nat
  isMultiSelect : Bool
  options : List RenderedOption
deriving DecidableEq, Repr

/-- Lines 176-199: one question's rendered options. Control kind is
checkbox iff the selection-criteria cell is present and non-empty (Python
truthiness of the string, line 177-178); each option of the `Selections`
cell is split on `+`, stripped and HTML-escaped into a `value` attribute
(lines 187-194); a `NaN` selections cell renders no controls. -/
def renderQuestion (pos : Nat) (r : Record) : RenderedQuestion :=
  { position := pos
    isMultiSelect :=
      match r.selectionCriteria with
      | none => false
      | some s => s ≠ ""
    options :=
      match r.selections with
      | none => []
      | some s => (pySplitPlus s).map fun o => { valueAttr := pyHtmlEscape (trimWS o) } }

/-- Lines 176-202: the rendered question blocks, one per sampled row, in
sample order with 1-based positions. -/
def renderAux : Nat → List Record → List RenderedQuestion
  | _, [] => []
  | i, r :: rs => renderQuestion i r :: renderAux (i + 1) rs

/-- The question blocks of the rendered document. -/
def renderQuestions (qs : List Record) : List RenderedQuestion :=
  renderAux 1 qs

/-- The status class `checkAnswers` leaves on one question block. -/
inductive Mark where
  | correct : Mark
  | incorrect : Mark
  | missing : Mark
deriving DecidableEq, Repr

/-- Lexicographic comparison of character lists by code point, the order
JavaScript's default `Array.prototype.sort` uses on strings. -/
def jsLeChars : List Char → List Char → Bool
  | [], _ => true
  | _ :: _, [] => false
  | a :: as, b :: bs => if a = b then jsLeChars as bs else decide (a < b)

/-- The string order of JavaScript's default sort. -/
def jsLe (a b : String) : Prop :=
  jsLeChars a.toList b.toList = true

instance : DecidableRel jsLe := fun a b =>
  inferInstanceAs (Decidable (jsLeChars a.toList b.toList = true))

/-- Line 143-144, `array.sort()`: JavaScript's default sort orders the
strings lexicographically; modelled with insertion sort over `jsLe`
(which sort algorithm the engine uses is unobservable — only the sorted
result is compared). -/
def sortJS (l : List String) : List String :=
  l.insertionSort jsLe

/-- Lines 133-153 for one question: `key` is the answer-key entry for the
position (`none` when absent — the question is skipped and left with no
status class); `selected` is the list of checked input values, already
trimmed (line 123). The key labels are trimmed (line 136); no selection
is `missing`; otherwise the sorted selected values are compared with the
sorted key labels (lines 143-145). -/
def gradeOne (key : Option (List String)) (selected : List String) : Option Mark :=
  match key with
  | none => none
  | some ks =>
    let correct := ks.map trimWS
    if selected = [] then some .missing
    else if sortJS selected = sortJS correct then some .correct
    else some .incorrect

/-- The DOM state of one question block while grading runs: the values of
its checked inputs (in document order, as `querySelectorAll` yields them)
and its current status class. -/
structure QuestionDom where
  checkedValues : List String
  mark : Option Mark
deriving DecidableEq, Repr

/-- The loop body of `checkAnswers` over the question blocks with their
1-based positions: each block's old status classes are removed and the
fresh classification applied (lines 115-153). -/
def checkAux (key : List (Nat × List String)) : Nat → List QuestionDom → List QuestionDom
  | _, [] => []
  | i, q :: qs =>
    { q with mark := gradeOne (key.lookup i) (q.checkedValues.map trimWS) }
      :: checkAux key (i + 1) qs

/-- One `checkAnswers` trigger (lines 111-166): regrade every question
block from the current checked state and report the score as the number
of correct blocks out of `key.length` (`Object.keys(correctAnswers).length`,
line 165). -/
def checkAnswersDom (key : List (Nat × List String)) (doc : List QuestionDom) :
    List QuestionDom × Nat × Nat :=
  let doc2 := checkAux key 1 doc
  (doc2, (doc2.filter fun q => q.mark = some .correct).length, key.length)

/-! ### Concrete banks and documents used to instantiate the theorems -/

/-- A two-row bank: a numeric generation number 3 and a non-numeric one. -/
def C1bank : List Record :=
  [⟨some 1, .int 3, "q1", some "A+B", none, some "A", "E", "1", "easy", "dom"⟩,
   ⟨none, .str "x", "q2", some "A+B", none, some "B", "E", "2", "easy", "dom"⟩]

/-- A one-row bank used to exercise the failing document write. -/
def C2bank : List Record :=
  [⟨none, .na, "q", some "A+B", none, some "A", "E", "1", "easy", "dom"⟩]

/-- A two-row bank sampled with a requested size above the bank size. -/
def C3bank : List Record :=
  [⟨some 1, .int 1, "q1", some "A+B", none, some "A", "E", "1", "easy", "dom"⟩,
   ⟨some 2, .int 2, "q2", some "A+B", none, some "B", "E", "2", "easy", "dom"⟩]

/-- A non-sampled row carrying a non-numeric generation value. -/
def C4r0 : Record := ⟨some 1, .str "abc", "q0", none, none, none, "E", "1", "easy", "dom"⟩

/-- The sampled row next to `C4r0`. -/
def C4r1 : Record := ⟨some 1, .int 2, "q1", none, none, none, "E", "2", "easy", "dom"⟩

/-- A question whose correct-answer cell is blank (present but whitespace). -/
def C5blank : Record := ⟨none, .na, "q", some "A+B", none, some " ", "E", "1", "easy", "dom"⟩

/-- A question whose correct-answer cell is absent (`NaN`). -/
def C5abs : Record := ⟨none, .na, "q", some "A+B", none, none, "E", "1", "easy", "dom"⟩

/-- A one-entry answer key for the regrade tests. -/
def C8key : List (Nat × List String) := [(1, ["A"])]

/-- A one-question document with option A checked and no status class. -/
def C8doc : List QuestionDom := [⟨["A"], none⟩]

/-- The same checked state as `C8doc` but carrying a stale status class. -/
def C8doc2 : List QuestionDom := [⟨["A"], some .incorrect⟩]

/-- Option text containing markup-reserved characters and padding. -/
def C9opt : String := " A<B\"&x "

/-- A question whose only option is `C9opt`. -/
def C9r : Record := ⟨none, .na, "q", some C9opt, none, some C9opt, "E", "1", "easy", "dom"⟩

/-- A one-row bank with a non-numeric generation value, for the empty run. -/
def C10r : Record := ⟨some 1, .str "abc", "q", none, none, none, "E", "1", "easy", "dom"⟩

/-! ### The comparison order used by the grading sort -/

theorem jsLeChars_total : ∀ as bs, (jsLeChars as bs || jsLeChars bs as) = true := by
  intro as
  induction as with
  | nil => intro bs; simp [jsLeChars]
  | cons a as ih =>
    intro bs
    cases bs with
    | nil => simp [jsLeChars]
    | cons b bs =>
      by_cases hab : a = b
      · subst hab
        simpa [jsLeChars] using ih bs
      · rcases lt_or_gt_of_ne hab with h | h
        · simp [jsLeChars, hab, Ne.symm hab, h]
        · simp [jsLeChars, hab, Ne.symm hab, h, asymm h]

theorem jsLeChars_trans :
    ∀ as bs cs, jsLeChars as bs = true → jsLeChars bs cs = true →
      jsLeChars as cs = true := by
  intro as
  induction as with
  | nil => intro bs cs _ _; simp [jsLeChars]
  | cons a as ih =>
    intro bs cs h1 h2
    cases bs with
    | nil => simp [jsLeChars] at h1
    | cons b bs =>
      cases cs with
      | nil => simp [jsLeChars] at h2
      | cons c cs =>
        by_cases hab : a = b
        · subst hab
          simp only [jsLeChars, if_pos rfl] at h1
          by_cases hbc : a = c
          · subst hbc
            simp only [jsLeChars, if_pos rfl] at h2 ⊢
            exact ih bs cs h1 h2
          · simpa [jsLeChars, hbc] using (by simpa [jsLeChars, hbc] using h2)
        · simp only [jsLeChars, if_neg hab, decide_eq_true_eq] at h1
          by_cases hbc : b = c
          · subst hbc
            simp [jsLeChars, hab, h1]
          · simp only [jsLeChars, if_neg hbc, decide_eq_true_eq] at h2
            have hlt : a < c := lt_trans h1 h2
            have hac : a ≠ c := ne_of_lt hlt
            simp [jsLeChars, hac, hlt]

theorem jsLeChars_antisymm :
    ∀ as bs, jsLeChars as bs = true → jsLeChars bs as = true → as = bs := by
  intro as
  induction as with
  | nil =>
    intro bs _ h2
    cases bs with
    | nil => rfl
    | cons b bs => simp [jsLeChars] at h2
  | cons a as ih =>
    intro bs h1 h2
    cases bs with
    | nil => simp [jsLeChars] at h1
    | cons b bs =>
      by_cases hab : a = b
      · subst hab
        simp only [jsLeChars, if_pos rfl] at h1 h2
        rw [ih bs h1 h2]
      · simp only [jsLeChars, if_neg hab, decide_eq_true_eq] at h1
        simp only [jsLeChars, if_neg (Ne.symm hab), decide_eq_true_eq] at h2
        exact absurd h2 (asymm h1)

instance : IsTotal String jsLe :=
  ⟨fun a b => by
    have h := jsLeChars_total a.toList b.toList
    rcases Bool.or_eq_true_iff.mp h with h | h
    · exact Or.inl h
    · exact Or.inr h⟩

instance : IsTrans String jsLe :=
  ⟨fun a b c h1 h2 => jsLeChars_trans a.toList b.toList c.toList h1 h2⟩

instance : IsAntisymm String jsLe :=
  ⟨fun a b h1 h2 => String.ext (jsLeChars_antisymm a.toList b.toList h1 h2)⟩

theorem sortJS_perm (l : List String) : (sortJS l).Perm l :=
  List.perm_insertionSort jsLe l

theorem sortJS_sorted (l : List String) : List.Sorted jsLe (sortJS l) :=
  List.sorted_insertionSort jsLe l

/-- Comparing sorted copies is exactly comparing up to permutation: the
code's `JSON.stringify(sorted a) === JSON.stringify(sorted b)` test
succeeds iff the two value lists are permutations of each other. -/
theorem sortJS_eq_iff (l₁ l₂ : List String) : sortJS l₁ = sortJS l₂ ↔ l₁.Perm l₂ := by
  constructor
  · intro h
    exact ((sortJS_perm l₁).symm.trans (h ▸ sortJS_perm l₂ : (sortJS l₁).Perm l₂))
  · intro h
    exact List.eq_of_perm_of_sorted
      ((sortJS_perm l₁).trans (h.trans (sortJS_perm l₂).symm))
      (sortJS_sorted l₁) (sortJS_sorted l₂)

/-! ### Escaping and trimming -/

theorem one_le_length_escapeChar (c : Char) : 1 ≤ (pyHtmlEscapeChar c).length := by
  unfold pyHtmlEscapeChar
  repeat' split
  all_goals simp

theorem length_le_length_escape (l : List Char) :
    l.length ≤ (pyHtmlEscapeList l).length := by
  induction l with
  | nil => simp [pyHtmlEscapeList]
  | cons c l ih =>
    rw [pyHtmlEscapeList, List.flatMap_cons, List.length_append]
    have h1 := one_le_length_escapeChar c
    have h2 : l.length ≤ (l.flatMap pyHtmlEscapeChar).length := ih
    simp only [List.length_cons]
    omega

theorem unescGo_escape (l : List Char) :
    ∀ fuel, l.length ≤ fuel → unescGo fuel (pyHtmlEscapeList l) = l := by
  induction l with
  | nil =>
    intro fuel _
    cases fuel <;> rfl
  | cons c l ih =>
    intro fuel hf
    cases fuel with
    | zero => exact absurd hf (by simp)
    | succ f =>
      have hf2 : l.length ≤ f := by simpa using hf
      rw [pyHtmlEscapeList, List.flatMap_cons]
      by_cases h1 : c = '&'
      · subst h1
        have step : unescGo (f + 1) (pyHtmlEscapeChar '&' ++ l.flatMap pyHtmlEscapeChar)
            = '&' :: unescGo f (l.flatMap pyHtmlEscapeChar) := rfl
        rw [step]
        exact congrArg (List.cons '&') (ih f hf2)
      · by_cases h2 : c = '<'
        · subst h2
          have step : unescGo (f + 1) (pyHtmlEscapeChar '<' ++ l.flatMap pyHtmlEscapeChar)
              = '<' :: unescGo f (l.flatMap pyHtmlEscapeChar) := rfl
          rw [step]
          exact congrArg (List.cons '<') (ih f hf2)
        · by_cases h3 : c = '>'
          · subst h3
            have step : unescGo (f + 1) (pyHtmlEscapeChar '>' ++ l.flatMap pyHtmlEscapeChar)
                = '>' :: unescGo f (l.flatMap pyHtmlEscapeChar) := rfl
            rw [step]
            exact congrArg (List.cons '>') (ih f hf2)
          · by_cases h4 : c = '"'
            · subst h4
              have step : unescGo (f + 1) (pyHtmlEscapeChar '"' ++ l.flatMap pyHtmlEscapeChar)
                  = '"' :: unescGo f (l.flatMap pyHtmlEscapeChar) := rfl
              rw [step]
              exact congrArg (List.cons '"') (ih f hf2)
            · by_cases h5 : c = Char.ofNat 39
              · subst h5
                have step : unescGo (f + 1)
                    (pyHtmlEscapeChar (Char.ofNat 39) ++ l.flatMap pyHtmlEscapeChar)
                    = Char.ofNat 39 :: unescGo f (l.flatMap pyHtmlEscapeChar) := rfl
                rw [step]
                exact congrArg (List.cons (Char.ofNat 39)) (ih f hf2)
              · rw [pyHtmlEscapeChar, if_neg h1, if_neg h2, if_neg h3, if_neg h4, if_neg h5,
                  List.singleton_append, unescGo, if_neg h1]
                exact congrArg (List.cons c) (ih f hf2)

/-- Decoding the `value` attribute `html.escape` produced recovers the
original text exactly: the escaping is reversible. -/
theorem htmlUnescapeList_pyHtmlEscapeList (l : List Char) :
    htmlUnescapeList (pyHtmlEscapeList l) = l :=
  unescGo_escape l (pyHtmlEscapeList l).length (length_le_length_escape l)

theorem htmlUnescape_pyHtmlEscape (s : String) : htmlUnescape (pyHtmlEscape s) = s := by
  apply String.ext
  show htmlUnescapeList (String.mk (pyHtmlEscapeList s.toList)).toList = s.data
  exact htmlUnescapeList_pyHtmlEscapeList s.data

theorem dropWhile_eq_self_of_prefix {p : Char → Bool} {m q : List Char}
    (hm : List.dropWhile p m = m) (hq : q <+: m) : List.dropWhile p q = q := by
  cases q with
  | nil => rfl
  | cons a q =>
    cases m with
    | nil => exact absurd (List.IsPrefix.length_le hq) (by simp)
    | cons b m =>
      have hab : a = b := by
        rcases hq with ⟨t, ht⟩
        exact (List.cons.injEq _ _ _ _ ▸ ht).1
      subst hab
      have hpa : ¬p a = true := by
        have := List.dropWhile_eq_self_iff.mp hm
        simpa using this (by simp)
      rw [List.dropWhile_cons, if_neg hpa]

theorem stripList_idem (l : List Char) : stripList (stripList l) = stripList l := by
  unfold stripList
  set m := l.dropWhile isPySpace with hm
  set s := m.reverse.dropWhile isPySpace with hs
  have hmm : List.dropWhile isPySpace m = m := List.dropWhile_idempotent _ _
  have hpre : s.reverse <+: m := by
    rw [← List.reverse_reverse m]
    exact List.reverse_prefix.mpr (hs ▸ List.dropWhile_suffix (l := m.reverse) isPySpace)
  have h1 : List.dropWhile isPySpace s.reverse = s.reverse :=
    dropWhile_eq_self_of_prefix hmm hpre
  rw [h1, List.reverse_reverse, List.dropWhile_idempotent]

theorem trimWS_idem (s : String) : trimWS (trimWS s) = trimWS s := by
  apply String.ext
  show stripList (String.mk (stripList s.toList)).toList = stripList s.data
  exact stripList_idem s.data

/-- The value the grading script reads back from a control rendered for
option text `t` (stripped at render time, escaped into the attribute,
decoded by the browser, trimmed by the script) is exactly `trimWS t`. -/
theorem readValue_rendered (t : String) :
    readValue (pyHtmlEscape (trimWS t)) = trimWS t := by
  rw [readValue, htmlUnescape_pyHtmlEscape, trimWS_idem]

/-! ### The pre-run maximum generation number bounds every valid value -/

theorem le_foldl_max (xs : List Int) (a : Int) : a ≤ xs.foldl max a := by
  induction xs generalizing a with
  | nil => exact le_refl a
  | cons x xs ih => exact le_trans (le_max_left a x) (ih (max a x))

theorem mem_le_foldl_max (xs : List Int) (a : Int) :
    ∀ g ∈ xs, g ≤ xs.foldl max a := by
  induction xs generalizing a with
  | nil => intro g hg; simp at hg
  | cons x xs ih =>
    intro g hg
    rcases List.mem_cons.mp hg with h | h
    · subst h
      exact le_trans (le_max_right a g) (le_foldl_max xs (max a g))
    · exact ih (max a x) g h

/-- Every valid numeric generation number in the bank is at most
`maxExamNumber`. -/
theorem le_maxExamNumber (bank : List Record) :
    ∀ g ∈ validGens bank, g ≤ maxExamNumber bank := by
  intro g hg
  unfold maxExamNumber
  rcases hv : validGens bank with _ | ⟨x, xs⟩
  · rw [hv] at hg; simp at hg
  · rw [hv] at hg
    rcases List.mem_cons.mp hg with h | h
    · subst h; exact le_foldl_max xs g
    · exact mem_le_foldl_max xs x g h

/-! ### Indexing the committed bank -/

theorem commitAux_length (newN : Int) (idxs : List Nat) :
    ∀ rs k, (commitAux newN idxs k rs).length = rs.length := by
  intro rs
  induction rs with
  | nil => intro k; rfl
  | cons r rs ih => intro k; simp [commitAux, ih]

theorem commitRun_length (bank : List Record) (idxs : List Nat) :
    (commitRun bank idxs).length = bank.length := by
  rw [commitRun, commitAux_length]
  simp [coerceExamNumbers]

theorem commitAux_getElem? (newN : Int) (idxs : List Nat) :
    ∀ rs k i, (commitAux newN idxs k rs)[i]? =
      (rs[i]?).map fun r => if k + i ∈ idxs then updateRecord newN r else r := by
  intro rs
  induction rs with
  | nil => intro k i; simp [commitAux]
  | cons r rs ih =>
    intro k i
    cases i with
    | zero => simp [commitAux]
    | succ i =>
      rw [commitAux, List.getElem?_cons_succ, List.getElem?_cons_succ, ih (k + 1) i]
      have harith : k + 1 + i = k + (i + 1) := by omega
      rw [harith]

/-- One row of the committed bank: the sampled rows are updated, the rest
keep everything except the coerced exam-number column. -/
theorem commitRun_getElem? (bank : List Record) (idxs : List Nat) (i : Nat) :
    (commitRun bank idxs)[i]? =
      (bank[i]?).map fun r =>
        let r2 := { r with examNumber := toNumericCell r.examNumber }
        if i ∈ idxs then updateRecord (newExamNumberOf bank) r2 else r2 := by
  rw [commitRun, commitAux_getElem?]
  rw [coerceExamNumbers, List.getElem?_map, Option.map_map]
  simp only [Nat.zero_add]
  cases bank[i]? <;> rfl

/-! ### Answer-key lookup -/

theorem buildKeyAux_lookup_lt :
    ∀ (rs : List Record) (n m : Nat), m < n → (buildKeyAux n rs).lookup m = none := by
  intro rs
  induction rs with
  | nil => intro n m _; rfl
  | cons r rs ih =>
    intro n m hm
    rw [buildKeyAux]
    rcases r.correctAnswers with _ | s
    · exact ih (n + 1) m (by omega)
    · show List.lookup m ((n, parseAnswers s) :: buildKeyAux (n + 1) rs) = none
      rw [List.lookup_cons]
      have hneq : (m == n) = false := by
        simp only [beq_eq_false_iff_ne, ne_eq]
        omega
      rw [hneq]
      exact ih (n + 1) m (by omega)

theorem buildKeyAux_lookup :
    ∀ (rs : List Record) (n i : Nat) (h : i < rs.length),
      (buildKeyAux n rs).lookup (n + i) = (rs.get ⟨i, h⟩).correctAnswers.map parseAnswers := by
  intro rs
  induction rs with
  | nil => intro n i h; simp at h
  | cons r rs ih =>
    intro n i h
    cases i with
    | zero =>
      rw [buildKeyAux]
      rcases hc : r.correctAnswers with _ | s
      · simpa [hc] using buildKeyAux_lookup_lt rs (n + 1) n (by omega)
      · show List.lookup (n + 0) ((n, parseAnswers s) :: buildKeyAux (n + 1) rs) = _
        rw [List.lookup_cons]
        have heq : (n + 0 == n) = true := by simp
        rw [heq]
        simp [hc]
    | succ i =>
      rw [buildKeyAux]
      have harith : n + (i + 1) = (n + 1) + i := by omega
      rcases hc : r.correctAnswers with _ | s
      · rw [harith, ih (n + 1) i (by simpa using h)]
        rfl
      · show List.lookup (n + (i + 1)) ((n, parseAnswers s) :: buildKeyAux (n + 1) rs) = _
        rw [List.lookup_cons]
        have hneq : (n + (i + 1) == n) = false := by
          simp only [beq_eq_false_iff_ne, ne_eq]
          omega
        rw [hneq, harith, ih (n + 1) i (by simpa using h)]
        rfl

/-- Positions in the key correspond exactly to sampled rows whose
correct-answer cell is present. -/
theorem buildAnswerKey_lookup (qs : List Record) (i : Nat) (h : i < qs.length) :
    (buildAnswerKey qs).lookup (i + 1) = (qs.get ⟨i, h⟩).correctAnswers.map parseAnswers := by
  rw [buildAnswerKey]
  have harith : (1 : Nat) + i = i + 1 := by omega
  rw [← harith]
  exact buildKeyAux_lookup qs 1 i h

theorem buildKeyAux_length :
    ∀ (rs : List Record) (n : Nat),
      (buildKeyAux n rs).length = (rs.filter fun r => r.correctAnswers.isSome).length := by
  intro rs
  induction rs with
  | nil => intro n; rfl
  | cons r rs ih =>
    intro n
    rw [buildKeyAux]
    rcases hc : r.correctAnswers with _ | s
    · rw [ih (n + 1)]
      simp [List.filter_cons, hc]
    · show ((n, parseAnswers s) :: buildKeyAux (n + 1) rs).length = _
      rw [List.length_cons, ih (n + 1)]
      simp [List.filter_cons, hc]

/-! ### Grading characterization -/

/-- A graded question is marked correct iff something is selected and the
selected values are, as a multiset, exactly the trimmed key labels. -/
theorem gradeOne_correct_iff (ks sel : List String) :
    gradeOne (some ks) sel = some Mark.correct ↔
      sel ≠ [] ∧ sel.Perm (ks.map trimWS) := by
  rw [gradeOne]
  by_cases hnil : sel = []
  · simp [hnil]
  · rw [if_neg hnil]
    by_cases hsort : sortJS sel = sortJS (ks.map trimWS)
    · simp [hsort, hnil, (sortJS_eq_iff sel (ks.map trimWS)).mp hsort]
    · rw [if_neg hsort]
      simp only [Option.some.injEq]
      constructor
      · intro hcon; cases hcon
      · intro hp
        exact absurd ((sortJS_eq_iff sel (ks.map trimWS)).mpr hp.2) hsort

theorem gradeOne_missing_iff (ks sel : List String) :
    gradeOne (some ks) sel = some Mark.missing ↔ sel = [] := by
  rw [gradeOne]
  by_cases hnil : sel = []
  · simp [hnil]
  · rw [if_neg hnil]
    by_cases hsort : sortJS sel = sortJS (ks.map trimWS) <;>
      simp [hsort, hnil]

theorem gradeOne_incorrect_iff (ks sel : List String) :
    gradeOne (some ks) sel = some Mark.incorrect ↔
      sel ≠ [] ∧ ¬sel.Perm (ks.map trimWS) := by
  rw [gradeOne]
  by_cases hnil : sel = []
  · simp [hnil]
  · rw [if_neg hnil]
    by_cases hsort : sortJS sel = sortJS (ks.map trimWS)
    · simp [hsort, hnil, (sortJS_eq_iff sel (ks.map trimWS)).mp hsort]
    · rw [if_neg hsort]
      simp only [Option.some.injEq]
      constructor
      · intro _
        exact ⟨hnil, fun hp => absurd ((sortJS_eq_iff sel (ks.map trimWS)).mpr hp) hsort⟩
      · intro _; trivial

/-- Grading only sees the selected values up to permutation. -/
theorem gradeOne_perm_invariant (key : Option (List String)) (sel₁ sel₂ : List String)
    (hp : sel₁.Perm sel₂) : gradeOne key sel₁ = gradeOne key sel₂ := by
  rcases key with _ | ks
  · rfl
  · rw [gradeOne, gradeOne]
    have hnil : sel₁ = [] ↔ sel₂ = [] := by
      constructor
      · intro h
        have hp2 := hp
        rw [h] at hp2
        exact hp2.symm.eq_nil
      · intro h
        have hp2 := hp
        rw [h] at hp2
        exact hp2.eq_nil
    by_cases h1 : sel₁ = []
    · rw [if_pos h1, if_pos (hnil.mp h1)]
    · rw [if_neg h1, if_neg (fun h => h1 (hnil.mpr h))]
      by_cases hs : sel₁.Perm (ks.map trimWS)
      · rw [if_pos ((sortJS_eq_iff _ _).mpr hs),
          if_pos ((sortJS_eq_iff _ _).mpr (hp.symm.trans hs))]
      · rw [if_neg fun hc => hs ((sortJS_eq_iff _ _).mp hc),
          if_neg fun hc => hs (hp.trans ((sortJS_eq_iff _ _).mp hc))]

/-! ### The check-answers pass -/

theorem checkAux_length (key : List (Nat × List String)) :
    ∀ qs k, (checkAux key k qs).length = qs.length := by
  intro qs
  induction qs with
  | nil => intro k; rfl
  | cons q qs ih => intro k; simp [checkAux, ih]

/-- The check pass does not change which inputs are checked. -/
theorem checkAux_checkedValues (key : List (Nat × List String)) :
    ∀ qs k, (checkAux key k qs).map QuestionDom.checkedValues
      = qs.map QuestionDom.checkedValues := by
  intro qs
  induction qs with
  | nil => intro k; rfl
  | cons q qs ih => intro k; simp [checkAux, ih]

/-- The result of the check pass is a function of the checked state alone:
two documents with the same checked inputs grade identically, whatever
status classes they carried before. -/
theorem checkAux_congr (key : List (Nat × List String)) :
    ∀ qs₁ qs₂ k,
      qs₁.map QuestionDom.checkedValues = qs₂.map QuestionDom.checkedValues →
      checkAux key k qs₁ = checkAux key k qs₂ := by
  intro qs₁
  induction qs₁ with
  | nil =>
    intro qs₂ k h
    cases qs₂ with
    | nil => rfl
    | cons q qs => simp at h
  | cons q qs ih =>
    intro qs₂ k h
    cases qs₂ with
    | nil => simp at h
    | cons p ps =>
      rw [checkAux, checkAux]
      simp only [List.map_cons, List.cons.injEq] at h
      rw [h.1, ih ps (k + 1) h.2]

/-- Running the check pass twice is the same as running it once. -/
theorem checkAux_idem (key : List (Nat × List String)) :
    ∀ qs k, checkAux key k (checkAux key k qs) = checkAux key k qs := by
  intro qs
  induction qs with
  | nil => intro k; rfl
  | cons q qs ih =>
    intro k
    rw [checkAux, checkAux]
    simp only [List.cons.injEq]
    exact ⟨trivial, ih (k + 1)⟩

/-! ### Rendering and sampling -/

theorem renderAux_length : ∀ (rs : List Record) (n : Nat),
    (renderAux n rs).length = rs.length := by
  intro rs
  induction rs with
  | nil => intro n; rfl
  | cons r rs ih => intro n; simp [renderAux, ih]

theorem renderQuestions_length (qs : List Record) :
    (renderQuestions qs).length = qs.length :=
  renderAux_length qs 1

theorem effSampleSize_eq_min (bankLen n : Nat) :
    effSampleSize bankLen n = min n bankLen := by
  rw [effSampleSize]
  rcases Nat.lt_or_ge bankLen n with h | h
  · rw [if_pos h, Nat.min_eq_right (Nat.le_of_lt h)]
  · rw [if_neg (Nat.not_lt.mpr h), Nat.min_eq_left h]

theorem effSampleSize_le (bankLen n : Nat) : effSampleSize bankLen n ≤ bankLen := by
  rw [effSampleSize_eq_min]; omega

theorem filterMap_get?_length (bank : List Record) :
    ∀ idxs : List Nat, (∀ i ∈ idxs, i < bank.length) →
      (idxs.filterMap fun i => bank[i]?).length = idxs.length := by
  intro idxs
  induction idxs with
  | nil => intro _; rfl
  | cons i idxs ih =>
    intro h
    rw [List.filterMap_cons]
    rw [List.getElem?_eq_getElem (h i (List.mem_cons_self i idxs))]
    rw [List.length_cons, ih fun j hj => h j (List.mem_cons_of_mem i hj)]
    rfl

/-- A sampled row of the committed bank: occurrence bumped by one (missing
treated as 0) and exam number set to the run's number. -/
theorem commitRun_sampled (bank : List Record) (idxs : List Nat) (i : Nat) (r : Record)
    (hi : i ∈ idxs) (hb : bank[i]? = some r) :
    (commitRun bank idxs)[i]? = some { r with
      occurrence := some (r.occurrence.getD 0 + 1),
      examNumber := Cell.int (newExamNumberOf bank) } := by
  rw [commitRun_getElem?, hb]
  simp [hi, updateRecord]

/-- A non-sampled row of the committed bank: everything kept except the
exam-number cell, which has been coerced. -/
theorem commitRun_unsampled (bank : List Record) (idxs : List Nat) (i : Nat) (r : Record)
    (hi : i ∉ idxs) (hb : bank[i]? = some r) :
    (commitRun bank idxs)[i]? = some { r with examNumber := toNumericCell r.examNumber } := by
  rw [commitRun_getElem?, hb]
  simp [hi]

theorem commitAux_nil (newN : Int) :
    ∀ (rs : List Record) (k : Nat), commitAux newN [] k rs = rs := by
  intro rs
  induction rs with
  | nil => intro k; rfl
  | cons r rs ih => intro k; simp [commitAux, ih]

/-- A run that samples nothing only normalizes the exam-number column. -/
theorem commitRun_nil (bank : List Record) :
    commitRun bank [] = coerceExamNumbers bank := by
  rw [commitRun, commitAux_nil]

theorem toNumericCell_idem (c : Cell) : toNumericCell (toNumericCell c) = toNumericCell c := by
  rcases c with _ | n | s
  · rfl
  · rfl
  · rw [toNumericCell]
    rcases parseIntChars s.toList with _ | n <;> rfl

/-- Coercion does not change the set of valid generation numbers. -/
theorem validGens_coerce (bank : List Record) :
    validGens (coerceExamNumbers bank) = validGens bank := by
  rw [validGens, coerceExamNumbers, List.filterMap_map]
  apply List.filterMap_congr
  intro r _
  show cellNum (toNumericCell (toNumericCell r.examNumber)) = _
  rw [toNumericCell_idem]

theorem maxExamNumber_coerce (bank : List Record) :
    maxExamNumber (coerceExamNumbers bank) = maxExamNumber bank := by
  rw [maxExamNumber, maxExamNumber, validGens_coerce]

theorem splitOnCharAux_no_delim (c : Char) :
    ∀ (l acc : List Char), c ∉ l → splitOnCharAux c l acc = [acc.reverse ++ l] := by
  intro l
  induction l with
  | nil => intro acc _; simp [splitOnCharAux]
  | cons x xs ih =>
    intro acc hc
    have hx : ¬x = c := fun h => hc (h ▸ List.mem_cons_self x xs)
    rw [splitOnCharAux, if_neg hx, ih (x :: acc) fun h => hc (List.mem_cons_of_mem x h)]
    simp

theorem stringMk_toList (s : String) : String.mk s.toList = s := by
  cases s
  rfl

/-- A specification without the delimiter is a single piece. -/
theorem pySplitPlus_single (s : String) (h : '+' ∉ s.toList) : pySplitPlus s = [s] := by
  rw [pySplitPlus, splitOnCharAux_no_delim '+' s.toList [] h]
  simp [stringMk_toList]

/-! ### The claims -/

/-- C1: the run's generation number is `1 + ` the maximum valid numeric
generation number of the pre-mutation bank (non-numeric and missing cells
excluded), defaults to 1 when no valid number exists, is assigned to every
sampled record, and is strictly greater than every valid pre-run
generation number in the whole bank. -/
theorem C1_generation_number (bank : List Record) (idxs : List Nat) :
    newExamNumberOf bank = maxExamNumber bank + 1 ∧
    (validGens bank = [] → newExamNumberOf bank = 1) ∧
    (∀ i ∈ idxs, ∀ r, (commitRun bank idxs)[i]? = some r →
      r.examNumber = Cell.int (newExamNumberOf bank)) ∧
    (∀ g ∈ validGens bank, g < newExamNumberOf bank) := by
  refine ⟨rfl, ?_, ?_, ?_⟩
  · intro h
    rw [newExamNumberOf, maxExamNumber, h]
    decide
  · intro i hi r hr
    rcases hb : bank[i]? with _ | r0
    · rw [commitRun_getElem?, hb] at hr
      cases hr
    · rw [commitRun_sampled bank idxs i r0 hi hb] at hr
      cases hr
      rfl
  · intro g hg
    have := le_maxExamNumber bank g hg
    rw [newExamNumberOf]
    omega

/-- C1 witness: on `C1bank` (valid maximum 3) the run's number is 4, the
sampled row 0 receives it, and it exceeds the valid value 3. -/
theorem C1_witness :
    newExamNumberOf C1bank = 4 ∧
    (∀ r, (commitRun C1bank [0])[0]? = some r → r.examNumber = Cell.int (newExamNumberOf C1bank)) ∧
    (3 : Int) ∈ validGens C1bank ∧ (3 : Int) < newExamNumberOf C1bank :=
  ⟨by decide,
   fun r hr => (C1_generation_number C1bank [0]).2.2.1 0 (by decide) r hr,
   by decide,
   (C1_generation_number C1bank [0]).2.2.2 3 (by decide)⟩

/-- C2: the code writes the mutated store (line 66) before the document
(lines 71-72), so a failing document write leaves the store mutated with
no document — exactly the partial-success state the claim rules out. -/
theorem C2_partial_state :
    (runEngine C2bank [0] true).2 = false ∧
    (runEngine C2bank [0] true).1.docExists = false ∧
    (runEngine C2bank [0] true).1.storeContents ≠ C2bank ∧
    (runEngine C2bank [0] true).1.storeContents = commitRun C2bank [0] := by
  decide

/-- C3: the effective sample size is `min(requested, bankSize)`; the
sampled row positions are distinct rows of the bank; the document renders
exactly that many questions; a requested size of 0 renders none. -/
theorem C3_effective_sample (bank : List Record) (n : Nat) (perm : List Nat)
    (hperm : perm.Perm (List.range bank.length)) :
    effSampleSize bank.length n = min n bank.length ∧
    (sampledIdxs bank.length n perm).Nodup ∧
    (∀ i ∈ sampledIdxs bank.length n perm, i < bank.length) ∧
    (sampleQuestions bank n perm).length = min n bank.length ∧
    (renderQuestions (sampleQuestions bank n perm)).length = min n bank.length ∧
    (n = 0 → renderQuestions (sampleQuestions bank n perm) = []) := by
  have hlen : perm.length = bank.length := hperm.length_eq.trans (List.length_range _)
  have hmem : ∀ i ∈ sampledIdxs bank.length n perm, i < bank.length := by
    intro i hi
    have h1 : i ∈ perm := (List.take_sublist _ _).subset hi
    exact List.mem_range.mp (hperm.mem_iff.mp h1)
  have hnodup : (sampledIdxs bank.length n perm).Nodup :=
    List.Nodup.sublist (List.take_sublist _ _) (hperm.nodup_iff.mpr (List.nodup_range _))
  have hlen2 : (sampledIdxs bank.length n perm).length = min n bank.length := by
    rw [sampledIdxs, List.length_take, hlen, effSampleSize_eq_min]
    omega
  have hq : (sampleQuestions bank n perm).length = min n bank.length := by
    rw [sampleQuestions, filterMap_get?_length bank _ hmem, hlen2]
  refine ⟨effSampleSize_eq_min _ _, hnodup, hmem, hq, ?_, ?_⟩
  · rw [renderQuestions_length, hq]
  · intro hn
    subst hn
    have h0 : effSampleSize bank.length 0 = 0 := by
      rw [effSampleSize_eq_min]
      omega
    rw [sampleQuestions, sampledIdxs, h0, List.take_zero]
    rfl

/-- C3 witness: a 2-row bank with requested size 5 samples exactly 2
distinct rows and renders 2 questions. -/
theorem C3_witness :
    ([1, 0] : List Nat).Perm (List.range C3bank.length) ∧
    effSampleSize C3bank.length 5 = min 5 C3bank.length ∧
    (sampleQuestions C3bank 5 [1, 0]).length = min 5 C3bank.length ∧
    (renderQuestions (sampleQuestions C3bank 5 [1, 0])).length = min 5 C3bank.length :=
  ⟨by decide,
   (C3_effective_sample C3bank 5 [1, 0] (by decide)).1,
   (C3_effective_sample C3bank 5 [1, 0] (by decide)).2.2.2.1,
   (C3_effective_sample C3bank 5 [1, 0] (by decide)).2.2.2.2.1⟩

/-- C4 counterexample: row 0 is not sampled, yet it is changed by the run
(its non-numeric generation value `"abc"` is coerced to `NaN` by line 49
and written back), so non-sampled records are not left completely
unchanged in all fields. -/
theorem C4_counterexample :
    (0 ∉ ([1] : List Nat)) ∧
    [C4r0, C4r1][0]? = some C4r0 ∧
    (commitRun [C4r0, C4r1] [1])[0]? ≠ some C4r0 := by
  decide

/-- C4 (amended): sampled rows get occurrence `+1` (missing as 0) and the
run's generation number; non-sampled rows keep every field except that
their generation cell is coerced; a non-sampled row whose generation cell
is already numeric or absent is fully unchanged. -/
theorem C4_frame (bank : List Record) (idxs : List Nat) (i : Nat) (r : Record)
    (hb : bank[i]? = some r) :
    (i ∈ idxs →
      (commitRun bank idxs)[i]? = some { r with
        occurrence := some (r.occurrence.getD 0 + 1),
        examNumber := Cell.int (newExamNumberOf bank) }) ∧
    (i ∉ idxs →
      (commitRun bank idxs)[i]? = some { r with examNumber := toNumericCell r.examNumber }) ∧
    (i ∉ idxs → toNumericCell r.examNumber = r.examNumber →
      (commitRun bank idxs)[i]? = some r) :=
  ⟨fun hi => commitRun_sampled bank idxs i r hi hb,
   fun hi => commitRun_unsampled bank idxs i r hi hb,
   fun hi hc => by rw [commitRun_unsampled bank idxs i r hi hb, hc]⟩

/-- C4 witness: in the two-row bank, the sampled row 1 is updated as
described and the numeric-valued variant of row 1 would be kept unchanged
when not sampled. -/
theorem C4_witness :
    [C4r0, C4r1][1]? = some C4r1 ∧
    (commitRun [C4r0, C4r1] [1])[1]? = some { C4r1 with
      occurrence := some (C4r1.occurrence.getD 0 + 1),
      examNumber := Cell.int (newExamNumberOf [C4r0, C4r1]) } ∧
    (commitRun [C4r0, C4r1] [0])[1]? = some C4r1 :=
  ⟨by decide,
   (C4_frame [C4r0, C4r1] [1] 1 C4r1 (by decide)).1 (by decide),
   (C4_frame [C4r0, C4r1] [0] 1 C4r1 (by decide)).2.2 (by decide) (by decide)⟩

/-- C5 counterexample: a blank (whitespace-only, hence present) correct-
answer cell is `notna`, so its position IS in the answer key, mapped to
the single empty label; the question is graded (incorrect here) and it is
counted in the score denominator — contrary to the claim for blank
fields. -/
theorem C5_counterexample :
    C5blank.correctAnswers = some " " ∧
    trimWS " " = "" ∧
    (buildAnswerKey [C5blank]).lookup 1 = some [""] ∧
    (buildAnswerKey [C5blank]).lookup 1 ≠ none ∧
    gradeOne ((buildAnswerKey [C5blank]).lookup 1) ["X"] = some Mark.incorrect ∧
    (buildAnswerKey [C5blank]).length = 1 := by
  decide

/-- C5 (amended): only a question whose correct-answer cell is absent
(`NaN`) has its position missing from the key; the grading protocol then
leaves it with no status class, and the score denominator equals the
number of key positions, i.e. the number of sampled rows with a present
correct-answer cell. -/
theorem C5_skip_absent (qs : List Record) (i : Nat) (h : i < qs.length) (sel : List String)
    (habs : (qs.get ⟨i, h⟩).correctAnswers = none) :
    (buildAnswerKey qs).lookup (i + 1) = none ∧
    gradeOne ((buildAnswerKey qs).lookup (i + 1)) sel = none ∧
    (buildAnswerKey qs).length = (qs.filter fun r => r.correctAnswers.isSome).length := by
  have h1 := buildAnswerKey_lookup qs i h
  rw [habs] at h1
  exact ⟨h1, by rw [h1]; rfl, buildKeyAux_length qs 1⟩

/-- C5 witness: a question with an absent correct-answer cell has no key
entry, gets no mark, and does not enter the denominator. -/
theorem C5_witness :
    (buildAnswerKey [C5abs]).lookup 1 = none ∧
    gradeOne ((buildAnswerKey [C5abs]).lookup 1) ["X"] = none ∧
    (buildAnswerKey [C5abs]).length = 0 :=
  ⟨(C5_skip_absent [C5abs] 0 (by decide) ["X"] rfl).1,
   (C5_skip_absent [C5abs] 0 (by decide) ["X"] rfl).2.1,
   by decide⟩

/-- C6: the answer-key builder splits the specification on `+` and strips
each label, so the three delimiter-spacing variants all parse to exactly
the labels Paris and London. -/
theorem C6_delimiter_variants :
    parseAnswers "Paris + London" = ["Paris", "London"] ∧
    parseAnswers "Paris+London" = ["Paris", "London"] ∧
    parseAnswers "Paris +London" = ["Paris", "London"] ∧
    (parseAnswers "Paris + London").toFinset = {"Paris", "London"} := by
  decide

/-- C7 counterexample: the selections `A, A, B` and the key `A+B+B` have
equal label sets (and equal sizes), yet the sorted-array comparison of
the code classifies the question as incorrect — set equality is not what
is implemented. -/
theorem C7_counterexample :
    (["A", "A", "B"] : List String).length = (["A", "B", "B"] : List String).length ∧
    (["A", "A", "B"] : List String).toFinset = (["A", "B", "B"] : List String).toFinset ∧
    gradeOne (some ["A", "B", "B"]) ["A", "A", "B"] = some Mark.incorrect := by
  decide

/-- C7 (amended): a graded question is correct iff something is selected
and the selected values equal the trimmed key labels as multisets
(equality of sorted lists); missing iff nothing is selected; incorrect
otherwise; grading is order-independent; and when neither side has
duplicate labels the multiset test coincides with set equality. -/
theorem C7_grading (ks sel : List String) :
    (gradeOne (some ks) sel = some Mark.correct ↔ sel ≠ [] ∧ sel.Perm (ks.map trimWS)) ∧
    (gradeOne (some ks) sel = some Mark.missing ↔ sel = []) ∧
    (gradeOne (some ks) sel = some Mark.incorrect ↔ sel ≠ [] ∧ ¬sel.Perm (ks.map trimWS)) ∧
    (∀ sel₂, sel.Perm sel₂ → gradeOne (some ks) sel = gradeOne (some ks) sel₂) ∧
    (sel.Nodup → (ks.map trimWS).Nodup →
      (gradeOne (some ks) sel = some Mark.correct ↔
        sel ≠ [] ∧ sel.toFinset = (ks.map trimWS).toFinset)) := by
  refine ⟨gradeOne_correct_iff ks sel, gradeOne_missing_iff ks sel,
    gradeOne_incorrect_iff ks sel,
    fun sel₂ hp => gradeOne_perm_invariant (some ks) sel sel₂ hp, ?_⟩
  intro hn1 hn2
  rw [gradeOne_correct_iff]
  constructor
  · intro ⟨h1, h2⟩
    exact ⟨h1, List.toFinset_eq_of_perm _ _ h2⟩
  · intro ⟨h1, h2⟩
    exact ⟨h1, List.perm_of_nodup_nodup_toFinset_eq hn1 hn2 h2⟩

/-- C7 witness: selecting `A, B` against key `B+A` is correct, and the two
selection orders grade identically. -/
theorem C7_witness :
    gradeOne (some ["B", "A"]) ["A", "B"] = some Mark.correct ∧
    gradeOne (some ["B", "A"]) ["A", "B"] = gradeOne (some ["B", "A"]) ["B", "A"] :=
  ⟨((C7_grading ["B", "A"] ["A", "B"]).1).mpr ⟨by decide, by decide⟩,
   (C7_grading ["B", "A"] ["A", "B"]).2.2.2.1 ["B", "A"] (by decide)⟩

/-- C8: one check pass recomputes every status class and the score from
the current checked state alone — a second pass changes nothing, and two
documents with the same checked inputs (whatever stale classes they
carry) grade to the same classifications and score. -/
theorem C8_regrade (key : List (Nat × List String)) (doc doc₂ : List QuestionDom)
    (hsame : doc.map QuestionDom.checkedValues = doc₂.map QuestionDom.checkedValues) :
    checkAnswersDom key (checkAnswersDom key doc).1 = checkAnswersDom key doc ∧
    checkAnswersDom key doc = checkAnswersDom key doc₂ := by
  constructor
  · show checkAnswersDom key (checkAux key 1 doc) = checkAnswersDom key doc
    rw [checkAnswersDom, checkAnswersDom]
    rw [checkAux_idem key doc 1]
  · rw [checkAnswersDom, checkAnswersDom]
    rw [checkAux_congr key doc doc₂ 1 hsame]

/-- C8 witness: regrading the one-question document is a no-op, and the
copy carrying a stale incorrect class grades identically. -/
theorem C8_witness :
    checkAnswersDom C8key (checkAnswersDom C8key C8doc).1 = checkAnswersDom C8key C8doc ∧
    checkAnswersDom C8key C8doc = checkAnswersDom C8key C8doc2 :=
  C8_regrade C8key C8doc C8doc2 (by decide)

/-- C9: for a question whose options cell holds the single option text
`opt` (no delimiter), the value the grading script reads from the
rendered control is exactly the unescaped trimmed option text, and
grading that selection against the key parsed from the same text is
correct — the display escaping is reversible and applied consistently. -/
theorem C9_value_consistency (opt : String) (r : Record)
    (hsel : r.selections = some opt) (hplus : '+' ∉ opt.toList) :
    ((renderQuestion 1 r).options.map fun o => readValue o.valueAttr) = [trimWS opt] ∧
    gradeOne (some [opt]) ((renderQuestion 1 r).options.map fun o => readValue o.valueAttr)
      = some Mark.correct := by
  have hopts : (renderQuestion 1 r).options = [⟨pyHtmlEscape (trimWS opt)⟩] := by
    rw [renderQuestion]
    simp [hsel, pySplitPlus_single opt hplus]
  constructor
  · rw [hopts]
    simp [readValue_rendered]
  · rw [hopts]
    simp only [List.map_cons, List.map_nil, readValue_rendered]
    exact (gradeOne_correct_iff [opt] [trimWS opt]).mpr ⟨by simp, by simp⟩

/-- C9 witness: the markup-laden padded option text round-trips through
escaping and is graded correct. -/
theorem C9_witness :
    ((renderQuestion 1 C9r).options.map fun o => readValue o.valueAttr) = [trimWS C9opt] ∧
    gradeOne (some [C9opt]) ((renderQuestion 1 C9r).options.map fun o => readValue o.valueAttr)
      = some Mark.correct :=
  ⟨(C9_value_consistency C9opt C9r rfl (by decide)).1,
   (C9_value_consistency C9opt C9r rfl (by decide)).2⟩

/-- C10 counterexample: a run that samples nothing still rewrites the
bank: the non-numeric generation value `"abc"` of the only row is coerced
to `NaN` and persisted, so "no record's occurrence or generation field
changes" fails as stated. -/
theorem C10_counterexample :
    effSampleSize [C10r].length 0 = 0 ∧
    commitRun [C10r] [] ≠ [C10r] ∧
    (commitRun [C10r] []).map Record.examNumber ≠ [C10r].map Record.examNumber := by
  decide

/-- C10 (amended): an empty run (requested size 0 or empty bank) changes
no occurrence field and only normalizes non-numeric generation cells to
absent; the maximum valid generation number — and hence the next run's
number and output path — is exactly the same as before, so a second empty
run derives the same document path and overwrites the first document. -/
theorem C10_empty_run (bank : List Record) (outputDir : String) (n : Nat) (perm : List Nat) :
    (n = 0 ∨ bank = [] → effSampleSize bank.length n = 0) ∧
    sampledIdxs bank.length 0 perm = [] ∧
    (commitRun bank []).map Record.occurrence = bank.map Record.occurrence ∧
    commitRun bank [] = coerceExamNumbers bank ∧
    maxExamNumber (commitRun bank []) = maxExamNumber bank ∧
    newExamNumberOf (commitRun bank []) = newExamNumberOf bank ∧
    outputPath outputDir (newExamNumberOf (commitRun bank [])) =
      outputPath outputDir (newExamNumberOf bank) := by
  have hc : commitRun bank [] = coerceExamNumbers bank := commitRun_nil bank
  have hmax : maxExamNumber (commitRun bank []) = maxExamNumber bank := by
    rw [hc, maxExamNumber_coerce]
  refine ⟨?_, ?_, ?_, hc, hmax, ?_, ?_⟩
  · rintro (hn | hb)
    · subst hn
      rw [effSampleSize_eq_min]
      omega
    · subst hb
      rw [effSampleSize_eq_min]
      simp
  · have h0 : effSampleSize bank.length 0 = 0 := by
      rw [effSampleSize_eq_min]
      omega
    rw [sampledIdxs, h0, List.take_zero]
  · rw [hc, coerceExamNumbers, List.map_map]
    rfl
  · rw [newExamNumberOf, newExamNumberOf, hmax]
  · rw [newExamNumberOf, newExamNumberOf, hmax]

/-- C10 witness: on the one-row bank with a non-numeric generation value,
the empty run preserves occurrences, the next number, and the path. -/
theorem C10_witness :
    effSampleSize [C10r].length 0 = 0 ∧
    (commitRun [C10r] []).map Record.occurrence = [C10r].map Record.occurrence ∧
    newExamNumberOf (commitRun [C10r] []) = newExamNumberOf [C10r] ∧
    outputPath "output" (newExamNumberOf (commitRun [C10r] [])) =
      outputPath "output" (newExamNumberOf [C10r]) :=
  ⟨(C10_empty_run [C10r] "output" 0 []).1 (Or.inl rfl),
   (C10_empty_run [C10r] "output" 0 []).2.2.1,
   (C10_empty_run [C10r] "output" 0 []).2.2.2.2.2.1,
   (C10_empty_run [C10r] "output" 0 []).2.2.2.2.2.2⟩

end SNP
